import Mathlib

/-!
Shallow embedding of the invite-attribution bot (`src/index.ts` and the
`/generate-invite` API route).  Snapshots of live invites are association
lists `code ↦ uses` in iteration order (JS `Map` preserves insertion order);
the persisted invite ledger is a list of rows.  Fallible external effects
(role grant, ledger write, platform invite creation) are modelled by boolean
success parameters, and the code's `try/catch` blocks by early returns that
leave state unchanged.
-/

namespace DiscordServer

/-- Invite status column: `'PENDING' | 'USED' | 'EXPIRED'`. -/
inductive Status where
  | PENDING
  | USED
  | EXPIRED
deriving DecidableEq

/-- One row of the `invites` table. -/
structure InviteRecord where
  invite_code : String
  role_id : String
  email : String
  status : Status
  created_at : Nat
  expires_at : Nat
  used_at : Option Nat
  member_id : Option String
deriving DecidableEq

/-- A guild's invite snapshot: `code ↦ uses` in iteration order. -/
abbrev Snapshot := List (String × Nat)

abbrev Ledger := List InviteRecord

/-- JS `Map.get`: value of the first entry with the given key. -/
def assocGet {α : Type} (m : List (String × α)) (k : String) : Option α :=
  (m.find? (fun p => p.1 == k)).map (·.2)

/-- JS `Map.set`: overwrite in place if the key exists, else append. -/
def assocSet {α : Type} (m : List (String × α)) (k : String) (v : α) :
    List (String × α) :=
  match m with
  | [] => [(k, v)]
  | (k', v') :: rest =>
    if k' == k then (k, v) :: rest else (k', v') :: assocSet rest k v

/-- `Map.get` on a snapshot (`oldInviteCache.get(code)`). -/
def lookupUses (snap : Snapshot) (code : String) : Option Nat :=
  assocGet snap code

/-- `newInvitesCollection.has(code)`. -/
def snapHas (snap : Snapshot) (code : String) : Bool :=
  (assocGet snap code).isSome

/-- Step 1 of `guildMemberAdd`: first code in the fresh collection whose use
count exceeds the cached one (`oldInviteCache.get(code) ?? 0`). -/
def incrementScan (oldSnap newSnap : Snapshot) : Option String :=
  (newSnap.find? (fun p => decide ((lookupUses oldSnap p.1).getD 0 < p.2))).map (·.1)

/-- Step 2 of `guildMemberAdd`: first code of the old cache that is absent
from the fresh collection. -/
def disappearanceScan (oldSnap newSnap : Snapshot) : Option String :=
  (oldSnap.find? (fun p => !snapHas newSnap p.1)).map (·.1)

/-- `SELECT invite_code FROM invites WHERE status = 'PENDING'
ORDER BY created_at DESC LIMIT 1`: a PENDING row with maximal
`created_at` (ties resolved deterministically here; the SQL leaves them
unspecified). -/
def mostRecentPending (ledger : Ledger) : Option InviteRecord :=
  (ledger.filter (fun r => r.status == Status.PENDING)).argmax (·.created_at)

/-- The attribution engine of `guildMemberAdd`: increment scan, then
disappearance scan, then ledger fallback. -/
def inviteAttribution (oldSnap newSnap : Snapshot) (ledger : Ledger) : Option String :=
  match incrementScan oldSnap newSnap with
  | some c => some c
  | none =>
    match disappearanceScan oldSnap newSnap with
    | some c => some c
    | none => (mostRecentPending ledger).map (·.invite_code)

/-- A role of the guild's role cache: identifier and hierarchy position. -/
structure Role where
  id : String
  name : String
  position : Nat
deriving DecidableEq

/-- Observable side effects of the grant path, in the order they happen. -/
inductive Effect where
  | grantRole (memberId roleId : String)
  | ledgerWrite (code : String)
deriving DecidableEq

/-- Result of `asignarRolPorInvite`: the ledger after the call, the effects
performed (in order), and what was logged. -/
structure GrantResult where
  ledger : Ledger
  effects : List Effect
  warned : Bool
  errored : Bool
deriving DecidableEq

/-- `UPDATE invites SET status='USED', used_at=$1, member_id=$2
WHERE invite_code=$3` (no status filter in the UPDATE itself). -/
def markUsedUpdate (ledger : Ledger) (code : String) (usedAt : Nat)
    (memberId : String) : Ledger :=
  ledger.map (fun r =>
    if r.invite_code == code then
      { r with status := Status.USED, used_at := some usedAt, member_id := some memberId }
    else r)

/-- `asignarRolPorInvite(member, code)`.  `grantOk` models whether
`member.roles.add(role)` succeeds, `updateOk` whether the `UPDATE` query
succeeds; a thrown effect lands in the shared `catch`, so everything after
it is skipped. -/
def asignarRolPorInvite (ledger : Ledger) (rolesCache : List Role)
    (botHighestPos : Nat) (memberId : String) (now : Nat) (code : String)
    (grantOk updateOk : Bool) : GrantResult :=
  match (ledger.filter (fun r => r.invite_code == code && r.status == Status.PENDING)).head? with
  | none => ⟨ledger, [], false, false⟩
  | some row =>
    match rolesCache.find? (fun ro => ro.id == row.role_id) with
    | none => ⟨ledger, [], true, false⟩
    | some role =>
      if botHighestPos ≤ role.position then ⟨ledger, [], true, false⟩
      else if !grantOk then ⟨ledger, [], false, true⟩
      else if !updateOk then ⟨ledger, [Effect.grantRole memberId role.id], false, true⟩
      else
        ⟨markUsedUpdate ledger code now memberId,
         [Effect.grantRole memberId role.id, Effect.ledgerWrite code], false, false⟩

/-- The process-wide invite cache: `guildId ↦ snapshot`. -/
abbrev GuildCache := List (String × Snapshot)

/-- Rebuild a `code ↦ uses` map from a fetched invite collection
(`forEach(inv => map.set(inv.code, inv.uses ?? 0))`). -/
def snapshotToMap (l : Snapshot) : Snapshot :=
  l.foldl (fun acc p => assocSet acc p.1 p.2) []

/-- `populateGuildInvites(guildId)`: on a successful fetch, replace the
guild's snapshot; a fetch error is caught and leaves the cache untouched. -/
def populateGuildInvites (cache : GuildCache) (guildId : String)
    (fetched : Except Unit Snapshot) : GuildCache :=
  match fetched with
  | Except.error _ => cache
  | Except.ok invs => assocSet cache guildId (snapshotToMap invs)

/-- Outcome of a `guildMemberAdd` event. -/
inductive JoinOutcome where
  | unresolved
  | deferred (code : String)
  | assigned (code : String)
deriving DecidableEq

/-- Result of one `guildMemberAdd` event. -/
structure JoinResult where
  cache : GuildCache
  ledger : Ledger
  outcome : JoinOutcome
deriving DecidableEq

/-- The `guildMemberAdd` handler: attribute the join from the cached and the
freshly fetched snapshots (plus ledger fallback), unconditionally replace the
cached snapshot, then either stop (no code), defer (screening gate), or run
the grant path. -/
def guildMemberAdd (cache : GuildCache) (ledger : Ledger) (guildId memberId : String)
    (pending : Bool) (newSnap : Snapshot) (rolesCache : List Role)
    (botHighestPos : Nat) (now : Nat) (grantOk updateOk : Bool) : JoinResult :=
  let oldSnap := (assocGet cache guildId).getD []
  let usedCode := inviteAttribution oldSnap newSnap ledger
  let cache1 := assocSet cache guildId (snapshotToMap newSnap)
  match usedCode with
  | none => ⟨cache1, ledger, JoinOutcome.unresolved⟩
  | some c =>
    if pending then ⟨cache1, ledger, JoinOutcome.deferred c⟩
    else
      let g := asignarRolPorInvite ledger rolesCache botHighestPos memberId now c grantOk updateOk
      ⟨cache1, g.ledger, JoinOutcome.assigned c⟩

/-- Database writes the `/generate-invite` route performs, in order. -/
inductive DbOp where
  | markExpired (code : String)
  | insertPending (code : String)
deriving DecidableEq

/-- Result of one `/generate-invite` request. -/
structure GenResult where
  ledger : Ledger
  trace : List DbOp
  statusCode : Nat
deriving DecidableEq

/-- The `POST /generate-invite` route.  `platformOk` models the guild/channel
lookups and `createInvite` succeeding with fresh code `newCode`; `now` is the
request time in ms and `ttl` the configured `INVITE_TTL_SECONDS`.  An
existing PENDING row for the email is reused while
`now < created_at + ttl*1000`, otherwise it is marked EXPIRED and a new
PENDING row is inserted. -/
def generateInvite (ledger : Ledger) (email roleId : String) (now ttl : Nat)
    (platformOk : Bool) (newCode : String) : GenResult :=
  if email == "" || roleId == "" then ⟨ledger, [], 400⟩
  else
    match (ledger.filter (fun r => r.email == email && r.status == Status.PENDING)).head? with
    | some existing =>
      if now < existing.created_at + ttl * 1000 then ⟨ledger, [], 200⟩
      else
        let ledger1 := ledger.map (fun r =>
          if r.invite_code == existing.invite_code then { r with status := Status.EXPIRED } else r)
        if !platformOk then ⟨ledger1, [DbOp.markExpired existing.invite_code], 500⟩
        else
          ⟨ledger1 ++ [⟨newCode, roleId, email, Status.PENDING, now, now + ttl * 1000, none, none⟩],
           [DbOp.markExpired existing.invite_code, DbOp.insertPending newCode], 200⟩
    | none =>
      if !platformOk then ⟨ledger, [], 500⟩
      else
        ⟨ledger ++ [⟨newCode, roleId, email, Status.PENDING, now, now + ttl * 1000, none, none⟩],
         [DbOp.insertPending newCode], 200⟩

/-- At most one PENDING ledger row per email. -/
def atMostOnePendingPerEmail (ledger : Ledger) : Prop :=
  ledger.Pairwise (fun a b =>
    a.status = Status.PENDING → b.status = Status.PENDING → a.email ≠ b.email)

instance (ledger : Ledger) : Decidable (atMostOnePendingPerEmail ledger) := by
  unfold atMostOnePendingPerEmail
  exact List.instDecidablePairwise ledger

/-! ### Helper lemmas -/

theorem assocGet_assocSet {α : Type} (m : List (String × α)) (k : String) (v : α) :
    assocGet (assocSet m k v) k = some v := by
  induction m with
  | nil => simp [assocSet, assocGet]
  | cons p rest ih =>
    obtain ⟨k', v'⟩ := p
    by_cases h : k' = k
    · subst h
      simp [assocSet, assocGet]
    · simp only [assocSet, beq_iff_eq, if_neg h]
      simpa [assocGet, h] using ih

theorem assocSet_append_of_not_mem {α : Type} (m : List (String × α)) (k : String) (v : α)
    (h : ∀ q ∈ m, q.1 ≠ k) : assocSet m k v = m ++ [(k, v)] := by
  induction m with
  | nil => simp [assocSet]
  | cons p rest ih =>
    have hp : p.1 ≠ k := h p (by simp)
    obtain ⟨k', v'⟩ := p
    simp only [assocSet, beq_iff_eq, if_neg hp]
    simp only [List.cons_append, List.cons.injEq, true_and]
    exact ih fun q hq => h q (by simp [hq])

theorem foldl_assocSet_eq_append (l : Snapshot) (acc : Snapshot)
    (hdisj : ∀ p ∈ l, ∀ q ∈ acc, q.1 ≠ p.1)
    (hnd : (l.map Prod.fst).Nodup) :
    l.foldl (fun m p => assocSet m p.1 p.2) acc = acc ++ l := by
  induction l generalizing acc with
  | nil => simp
  | cons p rest ih =>
    rw [List.foldl_cons,
      assocSet_append_of_not_mem acc p.1 p.2 (fun q hq => hdisj p (by simp) q hq)]
    rw [ih (acc ++ [p]) ?_ ?_]
    · simp
    · intro p' hp' q hq
      rcases List.mem_append.mp hq with hq | hq
      · exact hdisj p' (by simp [hp']) q hq
      · simp only [List.mem_singleton] at hq
        subst hq
        intro hc
        exact (List.nodup_cons.mp hnd).1 (hc ▸ List.mem_map_of_mem Prod.fst hp')
    · exact (List.nodup_cons.mp hnd).2

theorem snapshotToMap_eq_self (l : Snapshot) (hnd : (l.map Prod.fst).Nodup) :
    snapshotToMap l = l := by
  unfold snapshotToMap
  simpa using foldl_assocSet_eq_append l [] (by simp) hnd

/-! ### Claim theorems -/

/-- C9: `populateGuildInvites` catches a fetch error, leaving whatever
snapshot the cache held for the guild (possibly none) untouched; the handler
returns normally instead of propagating the failure. -/
theorem populate_failure_leaves_cache (cache : GuildCache) (guildId : String) :
    populateGuildInvites cache guildId (Except.error ()) = cache := rfl

/-- C8: after a `guildMemberAdd` event for guild `guildId`, the cached
snapshot for that guild equals the freshly fetched collection, whatever the
outcome (attributed, unresolved, or deferred behind the screening gate). -/
theorem cache_resynchronized_on_join (cache : GuildCache) (ledger : Ledger)
    (guildId memberId : String) (pending : Bool) (newSnap : Snapshot)
    (rolesCache : List Role) (botHighestPos now : Nat) (grantOk updateOk : Bool)
    (hnd : (newSnap.map Prod.fst).Nodup) :
    assocGet (guildMemberAdd cache ledger guildId memberId pending newSnap
      rolesCache botHighestPos now grantOk updateOk).cache guildId = some newSnap := by
  rcases h : inviteAttribution ((assocGet cache guildId).getD []) newSnap ledger with _ | c
  · simp [guildMemberAdd, h, snapshotToMap_eq_self newSnap hnd, assocGet_assocSet]
  · by_cases hp : pending <;>
      simp [guildMemberAdd, h, hp, snapshotToMap_eq_self newSnap hnd, assocGet_assocSet]

/-- Witness for C8 at a concrete join event. -/
theorem cache_resynchronized_on_join_witness :
    ([("A", 1), ("B", 0)].map Prod.fst).Nodup ∧
      assocGet (guildMemberAdd [("g", [("A", 0)])] [] "g" "m" false
        [("A", 1), ("B", 0)] [] 5 0 true true).cache "g" = some [("A", 1), ("B", 0)] :=
  ⟨by decide,
   cache_resynchronized_on_join [("g", [("A", 0)])] [] "g" "m" false
     [("A", 1), ("B", 0)] [] 5 0 true true (by decide)⟩

theorem incrementScan_none_of_no_increase (oldSnap newSnap : Snapshot)
    (h : ∀ p ∈ newSnap, p.2 ≤ (lookupUses oldSnap p.1).getD 0) :
    incrementScan oldSnap newSnap = none := by
  have hfind : newSnap.find? (fun p => decide ((lookupUses oldSnap p.1).getD 0 < p.2)) = none := by
    rw [List.find?_eq_none]
    intro p hp
    simp only [decide_eq_true_eq, Nat.not_lt]
    exact h p hp
  simp [incrementScan, hfind]

theorem incrementScan_first_increase (oldSnap newSnap : Snapshot) (c : String) (u v : Nat)
    (hold : lookupUses oldSnap c = some u)
    (hnew : lookupUses newSnap c = some v)
    (huv : u < v)
    (hrest : ∀ p ∈ newSnap, p.1 ≠ c → p.2 ≤ (lookupUses oldSnap p.1).getD 0) :
    incrementScan oldSnap newSnap = some c := by
  induction newSnap with
  | nil => simp [lookupUses, assocGet] at hnew
  | cons p rest ih =>
    by_cases hc : p.1 = c
    · have hv : p.2 = v := by
        unfold lookupUses assocGet at hnew
        rw [@List.find?_cons_of_pos _ (fun q : String × Nat => q.1 == c) p rest
          (by simp [hc])] at hnew
        simpa using hnew
      unfold incrementScan
      rw [@List.find?_cons_of_pos _
        (fun q : String × Nat => decide ((lookupUses oldSnap q.1).getD 0 < q.2)) p rest
        (by simp only [hc, hv, hold, decide_eq_true_eq, Option.getD_some]; exact huv)]
      simp [hc]
    · have hple : p.2 ≤ (lookupUses oldSnap p.1).getD 0 := hrest p (by simp) hc
      have hnew' : lookupUses rest c = some v := by
        unfold lookupUses assocGet at hnew ⊢
        rw [@List.find?_cons_of_neg _ (fun q : String × Nat => q.1 == c) p rest
          (by simp [hc])] at hnew
        exact hnew
      have hrec := ih hnew' (fun q hq hqc => hrest q (by simp [hq]) hqc)
      unfold incrementScan at hrec ⊢
      rw [@List.find?_cons_of_neg _
        (fun q : String × Nat => decide ((lookupUses oldSnap q.1).getD 0 < q.2)) p rest
        (by simpa [Nat.not_lt] using hple)]
      exact hrec

/-- C10: a code absent from the old snapshot is treated as having old use
count `0` (`oldInviteCache.get(code) ?? 0`): if it appears in the fresh
collection with a positive count and no earlier entry of the fresh
collection shows an increase, step 1 itself returns it, whatever the ledger
holds. -/
theorem new_only_code_attributed_step1 (oldSnap pre post : Snapshot)
    (c : String) (n : Nat) (ledger : Ledger)
    (hn : 0 < n)
    (hnotold : lookupUses oldSnap c = none)
    (hpre : ∀ p ∈ pre, p.2 ≤ (lookupUses oldSnap p.1).getD 0) :
    incrementScan oldSnap (pre ++ (c, n) :: post) = some c ∧
      inviteAttribution oldSnap (pre ++ (c, n) :: post) ledger = some c := by
  have hfind : (pre ++ (c, n) :: post).find?
      (fun p => decide ((lookupUses oldSnap p.1).getD 0 < p.2)) = some (c, n) := by
    rw [List.find?_append]
    have hprenone : pre.find?
        (fun p => decide ((lookupUses oldSnap p.1).getD 0 < p.2)) = none := by
      rw [List.find?_eq_none]
      intro p hp
      simpa [Nat.not_lt] using hpre p hp
    rw [hprenone, Option.none_or]
    exact List.find?_cons_of_pos _ (by simp [hnotold, hn])
  have h1 : incrementScan oldSnap (pre ++ (c, n) :: post) = some c := by
    simp [incrementScan, hfind]
  exact ⟨h1, by simp [inviteAttribution, h1]⟩

/-- Witness for C10: `old = [("A",0)]`, `new = [("A",0), ("B",1)]` — the
brand-new code `B` is attributed by the increment scan. -/
theorem new_only_code_attributed_step1_witness :
    0 < 1 ∧ lookupUses [("A", 0)] "B" = none ∧
      (∀ p ∈ ([("A", 0)] : Snapshot), p.2 ≤ (lookupUses [("A", 0)] p.1).getD 0) ∧
      incrementScan [("A", 0)] ([("A", 0)] ++ ("B", 1) :: []) = some "B" ∧
      inviteAttribution [("A", 0)] ([("A", 0)] ++ ("B", 1) :: []) [] = some "B" := by
  refine ⟨by decide, by decide, by decide, ?_⟩
  have h := new_only_code_attributed_step1 [("A", 0)] [("A", 0)] [] "B" 1 []
    (by decide) (by decide) (by decide)
  exact h

/-- C2: when no code's use count increases (a code absent from a snapshot
counting as `0`) and exactly one code of the old cache is absent from the
fresh collection, attribution returns that vanished code; moreover the
disappearance scan is consulted only when the increment scan found nothing,
since a step-1 hit is returned as is. -/
theorem vanished_code_attributed (oldSnap newSnap : Snapshot) (ledger : Ledger) (c : String)
    (hmem : ∃ p ∈ oldSnap, p.1 = c ∧ snapHas newSnap c = false)
    (huniq : ∀ p ∈ oldSnap, snapHas newSnap p.1 = false → p.1 = c)
    (hnoinc : ∀ p ∈ newSnap, p.2 ≤ (lookupUses oldSnap p.1).getD 0) :
    inviteAttribution oldSnap newSnap ledger = some c ∧
      (∀ oldS newS : Snapshot, ∀ led : Ledger, ∀ c' : String,
        incrementScan oldS newS = some c' → inviteAttribution oldS newS led = some c') := by
  constructor
  · have h1 : incrementScan oldSnap newSnap = none :=
      incrementScan_none_of_no_increase oldSnap newSnap hnoinc
    obtain ⟨p0, hp0m, hp0c, hp0has⟩ := hmem
    have hsome : (oldSnap.find? (fun p => !snapHas newSnap p.1)).isSome := by
      rw [List.find?_isSome]
      exact ⟨p0, hp0m, by simp [hp0c, hp0has]⟩
    obtain ⟨q, hq⟩ := Option.isSome_iff_exists.mp hsome
    have hqm := List.mem_of_find?_eq_some hq
    have hqp := List.find?_some hq
    have hqc : q.1 = c := huniq q hqm (by simpa using hqp)
    simp [inviteAttribution, h1, disappearanceScan, hq, hqc]
  · intro oldS newS led c' h
    simp [inviteAttribution, h]

/-- Witness for C2 at spec example (b): `old={"XYZ789":0}`, `new={}`. -/
theorem vanished_code_attributed_witness :
    (∃ p ∈ ([("XYZ789", 0)] : Snapshot), p.1 = "XYZ789" ∧ snapHas [] "XYZ789" = false) ∧
      inviteAttribution [("XYZ789", 0)] [] [] = some "XYZ789" := by
  refine ⟨⟨("XYZ789", 0), by decide, by decide, by decide⟩, ?_⟩
  exact (vanished_code_attributed [("XYZ789", 0)] [] [] "XYZ789"
    ⟨("XYZ789", 0), by decide, by decide, by decide⟩
    (by decide) (by decide)).1

/-- C1 counterexample: with `old = {"A": 0}` and `new = {"B": 1, "A": 1}`,
the code `A` is the only code present in both snapshots whose count strictly
increased, and no code of `old` is absent from `new`; yet the engine returns
`B`, a brand-new code whose count the scan compares against the `?? 0`
default.  The conjuncts spell out the claim's hypotheses at this input. -/
theorem newOnly_code_preempts_increment :
    (lookupUses [("A", 0)] "A" = some 0 ∧
        lookupUses [("B", 1), ("A", 1)] "A" = some 1 ∧ 0 < 1) ∧
      (∀ p ∈ ([("B", 1), ("A", 1)] : Snapshot),
        (lookupUses [("A", 0)] p.1).isSome ∧ (lookupUses [("A", 0)] p.1).getD 0 < p.2 →
          p.1 = "A") ∧
      (∀ p ∈ ([("A", 0)] : Snapshot), snapHas [("B", 1), ("A", 1)] p.1 = true) ∧
      inviteAttribution [("A", 0)] [("B", 1), ("A", 1)] [] = some "B" ∧
      "B" ≠ "A" := by
  decide

/-- C1 (amended): if exactly one code present in both snapshots has a
strictly greater use count in `new` than in `old`, no code present in `old`
is absent from `new`, and — additionally — every code present only in `new`
has use count `0`, then attribution returns the incremented code. -/
theorem single_increment_attributed (oldSnap newSnap : Snapshot) (ledger : Ledger)
    (c : String) (u v : Nat)
    (hold : lookupUses oldSnap c = some u)
    (hnew : lookupUses newSnap c = some v)
    (huv : u < v)
    (huniq : ∀ p ∈ newSnap, p.1 ≠ c → ∀ w, lookupUses oldSnap p.1 = some w → p.2 ≤ w)
    (_hnodis : ∀ p ∈ oldSnap, snapHas newSnap p.1 = true)
    (hfresh : ∀ p ∈ newSnap, lookupUses oldSnap p.1 = none → p.2 = 0) :
    inviteAttribution oldSnap newSnap ledger = some c := by
  have hscan : incrementScan oldSnap newSnap = some c := by
    refine incrementScan_first_increase oldSnap newSnap c u v hold hnew huv ?_
    intro p hp hpc
    rcases hw : lookupUses oldSnap p.1 with _ | w
    · simp [hfresh p hp hw]
    · simpa using huniq p hp hpc w hw
  simp [inviteAttribution, hscan]

/-- Witness for the amended C1 at spec example (a):
`old={"ABC123":0}`, `new={"ABC123":1}`. -/
theorem single_increment_attributed_witness :
    lookupUses [("ABC123", 0)] "ABC123" = some 0 ∧
      lookupUses [("ABC123", 1)] "ABC123" = some 1 ∧ 0 < 1 ∧
      inviteAttribution [("ABC123", 0)] [("ABC123", 1)] [] = some "ABC123" := by
  refine ⟨by decide, by decide, by decide, ?_⟩
  exact single_increment_attributed [("ABC123", 0)] [("ABC123", 1)] [] "ABC123" 0 1
    (by decide) (by decide) (by decide) (by decide) (by decide) (by decide)

/-- C3: when both scans come back empty, attribution returns the code of the
ledger's PENDING row with the latest creation time, and nothing when the
ledger has no PENDING row. -/
theorem ledger_fallback_attribution (oldSnap newSnap : Snapshot) (ledger : Ledger)
    (h1 : incrementScan oldSnap newSnap = none)
    (h2 : disappearanceScan oldSnap newSnap = none) :
    ((∀ r ∈ ledger, r.status ≠ Status.PENDING) →
        inviteAttribution oldSnap newSnap ledger = none) ∧
      (∀ r ∈ ledger, r.status = Status.PENDING →
        (∀ s ∈ ledger, s.status = Status.PENDING → s ≠ r → s.created_at < r.created_at) →
        inviteAttribution oldSnap newSnap ledger = some r.invite_code) := by
  constructor
  · intro hnone
    have hfil : ledger.filter (fun r => r.status == Status.PENDING) = [] := by
      rw [List.filter_eq_nil_iff]
      intro r hr
      simpa using hnone r hr
    simp [inviteAttribution, h1, h2, mostRecentPending, hfil]
  · intro r hr hrst hmax
    have hrfil : r ∈ ledger.filter (fun s => s.status == Status.PENDING) := by
      simp [List.mem_filter, hr, hrst]
    rcases hm : (ledger.filter (fun s => s.status == Status.PENDING)).argmax
        (·.created_at) with _ | m
    · rw [List.argmax_eq_none] at hm
      rw [hm] at hrfil
      simp at hrfil
    · have hmmem : m ∈ ledger.filter (fun s => s.status == Status.PENDING) :=
        List.argmax_mem (Option.mem_def.mpr hm)
      have hle : r.created_at ≤ m.created_at :=
        List.le_of_mem_argmax hrfil (Option.mem_def.mpr hm)
      have hmr : m = r := by
        by_contra hne
        have hmst : m.status = Status.PENDING := by
          simpa using (List.mem_filter.mp hmmem).2
        have hmm : m ∈ ledger := (List.mem_filter.mp hmmem).1
        have := hmax m hmm hmst hne
        omega
      subst hmr
      simp [inviteAttribution, h1, h2, mostRecentPending, hm]

/-- Witness for C3 at spec example (c): empty snapshots, the ledger's only
PENDING row (and the latest-created) is `FALLBACK1`; also the no-PENDING
half at the empty ledger. -/
theorem ledger_fallback_attribution_witness :
    incrementScan [] [] = none ∧ disappearanceScan [] [] = none ∧
      inviteAttribution [] [] [] = none ∧
      inviteAttribution [] []
        [⟨"OLD1", "r", "e", Status.EXPIRED, 9, 9, none, none⟩,
         ⟨"FALLBACK1", "r", "e", Status.PENDING, 5, 9, none, none⟩] = some "FALLBACK1" := by
  refine ⟨by decide, by decide, ?_, ?_⟩
  · exact (ledger_fallback_attribution [] [] [] (by decide) (by decide)).1 (by decide)
  · exact (ledger_fallback_attribution [] []
      [⟨"OLD1", "r", "e", Status.EXPIRED, 9, 9, none, none⟩,
       ⟨"FALLBACK1", "r", "e", Status.PENDING, 5, 9, none, none⟩]
      (by decide) (by decide)).2
      ⟨"FALLBACK1", "r", "e", Status.PENDING, 5, 9, none, none⟩
      (by decide) (by decide) (by decide)

/-- C4: `markUsed` is realised as the `UPDATE ... SET status='USED'` guarded
by the PENDING-filtered `SELECT` in `asignarRolPorInvite`; when every row
bearing the code is already USED or EXPIRED the call is a no-op — the ledger
(hence `status`, `used_at`, `member_id`) is unchanged and no effect is
performed, so only a row currently PENDING can transition to USED. -/
theorem markUsed_noop_on_terminal_record (ledger : Ledger) (rolesCache : List Role)
    (botHighestPos : Nat) (memberId : String) (now : Nat) (code : String)
    (grantOk updateOk : Bool)
    (h : ∀ r ∈ ledger, r.invite_code = code →
      r.status = Status.USED ∨ r.status = Status.EXPIRED) :
    asignarRolPorInvite ledger rolesCache botHighestPos memberId now code grantOk updateOk
      = ⟨ledger, [], false, false⟩ := by
  have hfil : ledger.filter
      (fun r => r.invite_code == code && r.status == Status.PENDING) = [] := by
    rw [List.filter_eq_nil_iff]
    intro r hr
    simp only [Bool.and_eq_true, beq_iff_eq, not_and]
    intro hcode
    rcases h r hr hcode with hs | hs <;> simp [hs]
  simp [asignarRolPorInvite, hfil]

/-- Witness for C4: a ledger holding one USED and one EXPIRED row with the
code; the call changes nothing. -/
theorem markUsed_noop_on_terminal_record_witness :
    (∀ r ∈ ([⟨"C1", "r", "e", Status.USED, 1, 2, some 3, some "m0"⟩,
        ⟨"C1", "r", "e", Status.EXPIRED, 1, 2, none, none⟩] : Ledger),
      r.invite_code = "C1" → r.status = Status.USED ∨ r.status = Status.EXPIRED) ∧
    asignarRolPorInvite
        [⟨"C1", "r", "e", Status.USED, 1, 2, some 3, some "m0"⟩,
         ⟨"C1", "r", "e", Status.EXPIRED, 1, 2, none, none⟩]
        [⟨"r", "Role", 1⟩] 5 "m1" 7 "C1" true true
      = ⟨[⟨"C1", "r", "e", Status.USED, 1, 2, some 3, some "m0"⟩,
          ⟨"C1", "r", "e", Status.EXPIRED, 1, 2, none, none⟩], [], false, false⟩ :=
  ⟨by decide,
   markUsed_noop_on_terminal_record
     [⟨"C1", "r", "e", Status.USED, 1, 2, some 3, some "m0"⟩,
      ⟨"C1", "r", "e", Status.EXPIRED, 1, 2, none, none⟩]
     [⟨"r", "Role", 1⟩] 5 "m1" 7 "C1" true true (by decide)⟩

/-- C5: if the grant attempt finds a PENDING row but the target role either
is not in the guild's role cache or sits at or above the bot's highest role
position, nothing is granted, the ledger is untouched (the row stays
PENDING), and only a warning is reported. -/
theorem grant_refused_on_hierarchy_or_missing_role (ledger : Ledger)
    (rolesCache : List Role) (botHighestPos : Nat) (memberId : String) (now : Nat)
    (code : String) (grantOk updateOk : Bool) (row : InviteRecord)
    (hrow : (ledger.filter
      (fun r => r.invite_code == code && r.status == Status.PENDING)).head? = some row)
    (hrole : ∀ role ∈ rolesCache, role.id = row.role_id → botHighestPos ≤ role.position) :
    asignarRolPorInvite ledger rolesCache botHighestPos memberId now code grantOk updateOk
        = ⟨ledger, [], true, false⟩ ∧
      row ∈ ledger ∧ row.status = Status.PENDING := by
  have hrmem : row ∈ ledger.filter
      (fun r => r.invite_code == code && r.status == Status.PENDING) := by
    obtain ⟨ys, hys⟩ := List.head?_eq_some_iff.mp hrow
    rw [hys]
    exact List.mem_cons_self _ _
  have hrled : row ∈ ledger := (List.mem_filter.mp hrmem).1
  have hrpend : row.status = Status.PENDING := by
    have := (List.mem_filter.mp hrmem).2
    simp only [Bool.and_eq_true, beq_iff_eq] at this
    exact this.2
  refine ⟨?_, hrled, hrpend⟩
  rcases hf : rolesCache.find? (fun ro => ro.id == row.role_id) with _ | role
  · simp [asignarRolPorInvite, hrow, hf]
  · have hmem := List.mem_of_find?_eq_some hf
    have hid : role.id = row.role_id := by simpa using List.find?_some hf
    have hle := hrole role hmem hid
    simp [asignarRolPorInvite, hrow, hf, hle]

/-- Witness for C5 at spec example (d): PENDING row for role `R1` at
position 5, bot's highest position 3 — refused with a warning, row stays
PENDING. -/
theorem grant_refused_on_hierarchy_or_missing_role_witness :
    (([⟨"ABC123", "R1", "e", Status.PENDING, 1, 2, none, none⟩] : Ledger).filter
        (fun r => r.invite_code == "ABC123" && r.status == Status.PENDING)).head?
      = some ⟨"ABC123", "R1", "e", Status.PENDING, 1, 2, none, none⟩ ∧
    asignarRolPorInvite [⟨"ABC123", "R1", "e", Status.PENDING, 1, 2, none, none⟩]
        [⟨"R1", "Role1", 5⟩] 3 "m1" 7 "ABC123" true true
      = ⟨[⟨"ABC123", "R1", "e", Status.PENDING, 1, 2, none, none⟩], [], true, false⟩ :=
  ⟨by decide,
   (grant_refused_on_hierarchy_or_missing_role
     [⟨"ABC123", "R1", "e", Status.PENDING, 1, 2, none, none⟩]
     [⟨"R1", "Role1", 5⟩] 3 "m1" 7 "ABC123" true true
     ⟨"ABC123", "R1", "e", Status.PENDING, 1, 2, none, none⟩
     (by decide) (by decide)).1⟩

/-- C6: on the path where the hierarchy check passes, the role grant comes
strictly before the ledger write (the successful call's effect list is
`[grant, write]` in that order), and if the grant succeeds while the
subsequent `UPDATE` fails, the grant stands but the ledger is unchanged —
the attributed row is still PENDING. -/
theorem grant_precedes_ledger_write (ledger : Ledger) (rolesCache : List Role)
    (botHighestPos : Nat) (memberId : String) (now : Nat) (code : String)
    (row : InviteRecord) (role : Role)
    (hrow : (ledger.filter
      (fun r => r.invite_code == code && r.status == Status.PENDING)).head? = some row)
    (hrole : rolesCache.find? (fun ro => ro.id == row.role_id) = some role)
    (hpos : role.position < botHighestPos) :
    (asignarRolPorInvite ledger rolesCache botHighestPos memberId now code true true).effects
        = [Effect.grantRole memberId role.id, Effect.ledgerWrite code] ∧
      (asignarRolPorInvite ledger rolesCache botHighestPos memberId now code true true).ledger
        = markUsedUpdate ledger code now memberId ∧
      (asignarRolPorInvite ledger rolesCache botHighestPos memberId now code true false).effects
        = [Effect.grantRole memberId role.id] ∧
      (asignarRolPorInvite ledger rolesCache botHighestPos memberId now code true false).ledger
        = ledger ∧
      row ∈ ledger ∧ row.status = Status.PENDING := by
  have hrmem : row ∈ ledger.filter
      (fun r => r.invite_code == code && r.status == Status.PENDING) := by
    obtain ⟨ys, hys⟩ := List.head?_eq_some_iff.mp hrow
    rw [hys]
    exact List.mem_cons_self _ _
  have hrled : row ∈ ledger := (List.mem_filter.mp hrmem).1
  have hrpend : row.status = Status.PENDING := by
    have := (List.mem_filter.mp hrmem).2
    simp only [Bool.and_eq_true, beq_iff_eq] at this
    exact this.2
  have hnle : ¬ botHighestPos ≤ role.position := Nat.not_le.mpr hpos
  refine ⟨?_, ?_, ?_, ?_, hrled, hrpend⟩ <;>
    simp [asignarRolPorInvite, hrow, hrole, hnle]

/-- Witness for C6: concrete ledger and role where the hierarchy check
passes; both the success ordering and the failed-write window are checked. -/
theorem grant_precedes_ledger_write_witness :
    (([⟨"C2", "R1", "e", Status.PENDING, 1, 2, none, none⟩] : Ledger).filter
        (fun r => r.invite_code == "C2" && r.status == Status.PENDING)).head?
      = some ⟨"C2", "R1", "e", Status.PENDING, 1, 2, none, none⟩ ∧
    (asignarRolPorInvite [⟨"C2", "R1", "e", Status.PENDING, 1, 2, none, none⟩]
        [⟨"R1", "Role1", 2⟩] 5 "m1" 7 "C2" true true).effects
      = [Effect.grantRole "m1" "R1", Effect.ledgerWrite "C2"] ∧
    (asignarRolPorInvite [⟨"C2", "R1", "e", Status.PENDING, 1, 2, none, none⟩]
        [⟨"R1", "Role1", 2⟩] 5 "m1" 7 "C2" true false).ledger
      = [⟨"C2", "R1", "e", Status.PENDING, 1, 2, none, none⟩] := by
  have h := grant_precedes_ledger_write
    [⟨"C2", "R1", "e", Status.PENDING, 1, 2, none, none⟩]
    [⟨"R1", "Role1", 2⟩] 5 "m1" 7 "C2"
    ⟨"C2", "R1", "e", Status.PENDING, 1, 2, none, none⟩ ⟨"R1", "Role1", 2⟩
    (by decide) (by decide) (by decide)
  exact ⟨by decide, h.1, h.2.2.2.1⟩

theorem pending_row_unique (ledger : Ledger) (email : String) (existing : InviteRecord)
    (hinv : atMostOnePendingPerEmail ledger)
    (hhead : (ledger.filter
      (fun r => r.email == email && r.status == Status.PENDING)).head? = some existing) :
    ∀ a ∈ ledger, a.email = email → a.status = Status.PENDING → a = existing := by
  have hpw : (ledger.filter
      (fun r => r.email == email && r.status == Status.PENDING)).Pairwise
      (fun a b => a.status = Status.PENDING → b.status = Status.PENDING →
        a.email ≠ b.email) :=
    List.Pairwise.filter _ hinv
  obtain ⟨ys, hys⟩ := List.head?_eq_some_iff.mp hhead
  have hys_nil : ys = [] := by
    rcases ys with _ | ⟨b, ys2⟩
    · rfl
    · exfalso
      rw [hys] at hpw
      have hrel := (List.pairwise_cons.mp hpw).1 b (by simp)
      have hbmem : b ∈ ledger.filter
          (fun r => r.email == email && r.status == Status.PENDING) := by
        rw [hys]
        simp
      have hexmem : existing ∈ ledger.filter
          (fun r => r.email == email && r.status == Status.PENDING) := by
        rw [hys]
        simp
      have hb := (List.mem_filter.mp hbmem).2
      have hex := (List.mem_filter.mp hexmem).2
      simp only [Bool.and_eq_true, beq_iff_eq] at hb hex
      exact hrel hex.2 hb.2 (hex.1.trans hb.1.symm)
  intro a ha hae hast
  have hafil : a ∈ ledger.filter
      (fun r => r.email == email && r.status == Status.PENDING) := by
    simp [List.mem_filter, ha, hae, hast]
  rw [hys, hys_nil] at hafil
  simpa using hafil

/-- C7: one `/generate-invite` request keeps the one-PENDING-row-per-email
invariant, reuses an unexpired PENDING row without inserting anything, and on
an expired row first marks it EXPIRED and only then inserts the fresh
PENDING row (the trace lists the writes in order). -/
theorem issuance_keeps_one_pending_per_email (ledger : Ledger) (email roleId : String)
    (now ttl : Nat) (newCode : String)
    (hinv : atMostOnePendingPerEmail ledger)
    (hemail : email ≠ "") (hroleId : roleId ≠ "")
    (hfresh : ∀ r ∈ ledger, r.invite_code ≠ newCode) :
    atMostOnePendingPerEmail (generateInvite ledger email roleId now ttl true newCode).ledger
    ∧ (∀ existing,
        (ledger.filter (fun r => r.email == email && r.status == Status.PENDING)).head?
          = some existing →
        now < existing.created_at + ttl * 1000 →
        generateInvite ledger email roleId now ttl true newCode = ⟨ledger, [], 200⟩)
    ∧ (∀ existing,
        (ledger.filter (fun r => r.email == email && r.status == Status.PENDING)).head?
          = some existing →
        existing.created_at + ttl * 1000 ≤ now →
        (generateInvite ledger email roleId now ttl true newCode).trace
            = [DbOp.markExpired existing.invite_code, DbOp.insertPending newCode]
          ∧ (∀ r ∈ (generateInvite ledger email roleId now ttl true newCode).ledger,
              r.invite_code = existing.invite_code → r.status = Status.EXPIRED)
          ∧ (⟨newCode, roleId, email, Status.PENDING, now, now + ttl * 1000,
                none, none⟩ : InviteRecord)
              ∈ (generateInvite ledger email roleId now ttl true newCode).ledger) := by
  have hg1 : (email == "" || roleId == "") = false := by
    simp [hemail, hroleId]
  rcases hex : (ledger.filter
      (fun r => r.email == email && r.status == Status.PENDING)).head? with _ | existing
  · -- no PENDING row for this email: insert a fresh one
    have hfilnil : ledger.filter
        (fun r => r.email == email && r.status == Status.PENDING) = [] :=
      List.head?_eq_none_iff.mp hex
    have hnopend : ∀ a ∈ ledger, a.status = Status.PENDING → a.email ≠ email := by
      intro a ha hast hae
      have hmem : a ∈ ledger.filter
          (fun r => r.email == email && r.status == Status.PENDING) := by
        simp [List.mem_filter, ha, hae, hast]
      rw [hfilnil] at hmem
      simp at hmem
    have hval : generateInvite ledger email roleId now ttl true newCode =
        ⟨ledger ++ [⟨newCode, roleId, email, Status.PENDING, now, now + ttl * 1000,
            none, none⟩],
         [DbOp.insertPending newCode], 200⟩ := by
      simp [generateInvite, hg1, hex]
    refine ⟨?_, ?_, ?_⟩
    · rw [hval]
      unfold atMostOnePendingPerEmail at hinv ⊢
      rw [List.pairwise_append]
      refine ⟨hinv, by simp, ?_⟩
      intro a ha b hb
      simp only [List.mem_singleton] at hb
      subst hb
      intro h1 _h2
      exact hnopend a ha h1
    · intro existing hex2 _hlt
      rw [hex] at hex2
      simp at hex2
    · intro existing hex2 _hle
      rw [hex] at hex2
      simp at hex2
  · -- a PENDING row exists for this email
    have hexmem : existing ∈ ledger.filter
        (fun r => r.email == email && r.status == Status.PENDING) := by
      obtain ⟨ys, hys⟩ := List.head?_eq_some_iff.mp hex
      rw [hys]
      exact List.mem_cons_self _ _
    have hexled : existing ∈ ledger := (List.mem_filter.mp hexmem).1
    have hexprops := (List.mem_filter.mp hexmem).2
    simp only [Bool.and_eq_true, beq_iff_eq] at hexprops
    by_cases hlt : now < existing.created_at + ttl * 1000
    · -- still valid: reuse, no mutation
      have hval : generateInvite ledger email roleId now ttl true newCode
          = ⟨ledger, [], 200⟩ := by
        simp [generateInvite, hg1, hex, hlt]
      refine ⟨?_, ?_, ?_⟩
      · rw [hval]
        exact hinv
      · intro existing2 hex2 _hlt2
        exact hval
      · intro existing2 hex2 hle2
        rw [hex] at hex2
        simp only [Option.some.injEq] at hex2
        subst hex2
        omega
    · -- expired: mark EXPIRED, then insert the fresh PENDING row
      have huniqrow := pending_row_unique ledger email existing hinv hex
      have hval : generateInvite ledger email roleId now ttl true newCode =
          ⟨(ledger.map (fun r => if r.invite_code == existing.invite_code
              then { r with status := Status.EXPIRED } else r))
            ++ [⟨newCode, roleId, email, Status.PENDING, now, now + ttl * 1000,
                none, none⟩],
           [DbOp.markExpired existing.invite_code, DbOp.insertPending newCode], 200⟩ := by
        simp [generateInvite, hg1, hex, hlt]
      refine ⟨?_, ?_, ?_⟩
      · rw [hval]
        unfold atMostOnePendingPerEmail at hinv ⊢
        rw [List.pairwise_append]
        refine ⟨?_, by simp, ?_⟩
        · rw [List.pairwise_map]
          refine hinv.imp ?_
          intro a b hab
          intro h1 h2
          by_cases hca : a.invite_code == existing.invite_code
          · simp only [if_pos hca] at h1
            simp at h1
          · by_cases hcb : b.invite_code == existing.invite_code
            · simp only [if_pos hcb] at h2
              simp at h2
            · simp only [if_neg hca] at h1 ⊢
              simp only [if_neg hcb] at h2 ⊢
              exact hab h1 h2
        · intro a ha b hb
          simp only [List.mem_singleton] at hb
          subst hb
          intro h1 _h2
          obtain ⟨a0, ha0, hfa0⟩ := List.mem_map.mp ha
          by_cases hca : a0.invite_code == existing.invite_code
          · rw [← hfa0] at h1
            simp only [if_pos hca] at h1
            simp at h1
          · rw [← hfa0] at h1 ⊢
            simp only [if_neg hca] at h1 ⊢
            intro hae
            have ha0ex := huniqrow a0 ha0 hae h1
            subst ha0ex
            simp at hca
      · intro existing2 hex2 hlt2
        rw [hex] at hex2
        simp only [Option.some.injEq] at hex2
        subst hex2
        omega
      · intro existing2 hex2 _hle2
        rw [hex] at hex2
        simp only [Option.some.injEq] at hex2
        subst hex2
        rw [hval]
        refine ⟨rfl, ?_, by simp⟩
        intro r hr hrc
        rcases List.mem_append.mp hr with hr | hr
        · obtain ⟨a0, ha0, hfa0⟩ := List.mem_map.mp hr
          by_cases hca : a0.invite_code == existing.invite_code
          · rw [← hfa0, if_pos hca]
          · rw [← hfa0] at hrc
            simp only [if_neg hca] at hrc
            simp only [beq_iff_eq] at hca
            exact absurd hrc hca
        · simp only [List.mem_singleton] at hr
          subst hr
          simp only at hrc
          exact absurd hrc.symm (hfresh existing hexled)

/-- Witness for C7 at spec example (e): a PENDING row for `a@x.com` created
at 0 with TTL 86400 s; a request at 90000 s marks it EXPIRED and inserts a
fresh PENDING row. -/
theorem issuance_keeps_one_pending_per_email_witness :
    atMostOnePendingPerEmail
        [⟨"OLD1", "R1", "a@x.com", Status.PENDING, 0, 86400000, none, none⟩] ∧
      (generateInvite [⟨"OLD1", "R1", "a@x.com", Status.PENDING, 0, 86400000, none, none⟩]
          "a@x.com" "R1" 90000000 86400 true "NEW1").trace
        = [DbOp.markExpired "OLD1", DbOp.insertPending "NEW1"] ∧
      atMostOnePendingPerEmail
        (generateInvite [⟨"OLD1", "R1", "a@x.com", Status.PENDING, 0, 86400000, none, none⟩]
          "a@x.com" "R1" 90000000 86400 true "NEW1").ledger := by
  have h := issuance_keeps_one_pending_per_email
    [⟨"OLD1", "R1", "a@x.com", Status.PENDING, 0, 86400000, none, none⟩]
    "a@x.com" "R1" 90000000 86400 "NEW1"
    (by decide) (by decide) (by decide) (by decide)
  refine ⟨by decide, ?_, h.1⟩
  exact (h.2.2 ⟨"OLD1", "R1", "a@x.com", Status.PENDING, 0, 86400000, none, none⟩
    (by decide) (by decide)).1

end DiscordServer
